import Mathlib

/-!
Verification development for the `reposheet` repository (file `reposheet.py`).

The Python source is shallowly embedded below:

* `sparkline_svg` (lines 19-40 of the source) is embedded with exact rational
  arithmetic (`ℚ`) standing in for Python float arithmetic, and Python
  exceptions (`ValueError` from `min()`/`max()` on an empty sequence,
  `ZeroDivisionError` from `/`) modelled by the `Except` error monad.
  `sparklinePoints` computes the polyline point list; `sparkline_svg` renders
  it to the markup string (number formatting is a stand-in: the claims under
  study concern point positions and failure, never the decimal rendering).
* `GitHubRepoScanner.get_repo_attr` (lines 52-83) is embedded as a memoized
  call over an explicit cache state; the `@cached` decorator of the
  `memoization` library stores successful results keyed by the full call
  signature and does not cache exceptions.
* `GitHubRepoScanner.scan_repos` (lines 85-185) is embedded as a function
  returning the list of generator yields together with an optional terminal
  exception.  The GitHub client, and the per-field attribute getter bound as
  `get = self.get_repo_attr` in the source, are parameters, so theorems
  quantify over every behaviour of the network layer.  `re.match` is embedded
  by a regular-expression matcher (`Regex.matchHere`) with Python's
  match-at-start semantics.
-/

namespace Reposheet

/-- Python exceptions that the embedded code can raise. -/
inductive PyErr where
  | assertionError
  | valueError
  | zeroDivisionError
  | attributeError
  | typeError
  | indexError
  | unknownObject
  | rateLimit
  | badCredentials
deriving DecidableEq, Repr

/-- Python `/` on rationals: raises `ZeroDivisionError` on a zero denominator,
otherwise returns the exact quotient. -/
def pyDiv (a b : ℚ) : Except PyErr ℚ :=
  if b = 0 then .error .zeroDivisionError else .ok (a / b)

/-- Python `enumerate`, starting at index `i`. -/
def enumF {α : Type} (i : Nat) : List α → List (Nat × α)
  | [] => []
  | a :: as => (i, a) :: enumF (i + 1) as

/-- Point list of the non-constant branch of `sparkline_svg`
(`f"{i / len(data) * width},{(max_ - val)/max_*height}"`, source line 33):
for each `(i, val)` the point is `(i/n*width, (max_-val)/max_*height)`.
Note the scaling divides by `max_`, not by the range `max_ - min_`. -/
def pointsScaled (n width height : ℚ) (max_ : Int) :
    List (Nat × Int) → Except PyErr (List (ℚ × ℚ))
  | [] => .ok []
  | (i, val) :: rest =>
    match pyDiv (i : ℚ) n with
    | .error e => .error e
    | .ok x =>
      match pyDiv ((max_ : ℚ) - (val : ℚ)) (max_ : ℚ) with
      | .error e => .error e
      | .ok y =>
        match pointsScaled n width height max_ rest with
        | .error e => .error e
        | .ok ps => .ok ((x * width, y * height) :: ps)

/-- Point list of the constant branch of `sparkline_svg`
(`f"{i / len(data) * width},{height-1}"`, source line 37). -/
def pointsFlat (n width height : ℚ) :
    List (Nat × Int) → Except PyErr (List (ℚ × ℚ))
  | [] => .ok []
  | (i, _) :: rest =>
    match pyDiv (i : ℚ) n with
    | .error e => .error e
    | .ok x =>
      match pointsFlat n width height rest with
      | .error e => .error e
      | .ok ps => .ok ((x * width, height - 1) :: ps)

/-- Polyline points computed by `sparkline_svg` (source lines 30-37).
`min(data)` / `max(data)` on an empty sequence raise `ValueError`; on
`d :: ds` they are the fold of `min`/`max` over the list. -/
def sparklinePoints (data : List Int) (width height : ℚ) :
    Except PyErr (List (ℚ × ℚ)) :=
  match data with
  | [] => .error .valueError
  | d :: ds =>
    if ds.foldl min d ≠ ds.foldl max d then
      pointsScaled ((d :: ds).length : ℚ) width height (ds.foldl max d)
        (enumF 0 (d :: ds))
    else
      pointsFlat ((d :: ds).length : ℚ) width height (enumF 0 (d :: ds))

/-- Decimal stand-in rendering of a rational coordinate (the claims never
inspect it). -/
def ratStr (q : ℚ) : String :=
  if q.den = 1 then toString q.num else toString q.num ++ "/" ++ toString q.den

/-- Embedding of `sparkline_svg` (source lines 19-40).  `width?` is `none`
when the caller does not pass `width`, in which case the Python default
`params.get("width", len(data))` applies. -/
def sparkline_svg (data : List Int) (add_embed : Bool) (width? : Option ℚ)
    (height : ℚ) (stroke : String) (weight : ℚ) : Except PyErr String :=
  let width := width?.getD (data.length : ℚ)
  match sparklinePoints data width height with
  | .error e => .error e
  | .ok pts =>
    let points := String.intercalate " " (pts.map (fun p => ratStr p.1 ++ "," ++ ratStr p.2))
    let style := "fill: none; stroke: " ++ stroke ++ "; stroke-width: " ++ ratStr weight
    let svg := "<svg height=\"" ++ ratStr height ++ "\" width=\"" ++ ratStr width
      ++ "\"><polyline points=\"" ++ points ++ "\" style=\"" ++ style ++ "\" /></svg>"
    .ok (if add_embed then "<embed>" ++ svg ++ "</embed>" else svg)

/-- Regular expressions, for the embedding of `re.match` used by
`scan_repos` for `repo_name_pat`. -/
inductive Regex where
  | emp
  | eps
  | chr (c : Char)
  | dot
  | cat (a b : Regex)
  | alt (a b : Regex)
  | star (a : Regex)
deriving DecidableEq, Repr

/-- Whether a regular expression accepts the empty word. -/
def Regex.nullable : Regex → Bool
  | .emp => false
  | .eps => true
  | .chr _ => false
  | .dot => false
  | .cat a b => a.nullable && b.nullable
  | .alt a b => a.nullable || b.nullable
  | .star _ => true

/-- Brzozowski derivative. -/
def Regex.deriv : Regex → Char → Regex
  | .emp, _ => .emp
  | .eps, _ => .emp
  | .chr c, x => if c = x then .eps else .emp
  | .dot, _ => .eps
  | .cat a b, x =>
    if a.nullable then .alt (.cat (a.deriv x) b) (b.deriv x) else .cat (a.deriv x) b
  | .alt a b, x => .alt (a.deriv x) (b.deriv x)
  | .star a, x => .cat (a.deriv x) (.star a)

/-- Whole-word match. -/
def Regex.rmatch (r : Regex) : List Char → Bool
  | [] => r.nullable
  | c :: cs => (r.deriv c).rmatch cs

/-- Match anchored at the start of the word but allowed to stop early:
true iff some prefix of the word matches `r`. -/
def Regex.matchHere (r : Regex) : List Char → Bool
  | [] => r.nullable
  | c :: cs => r.nullable || (r.deriv c).matchHere cs

/-- Embedding of the truthiness of `re.match(pat, s)` (source line 129):
Python's `re.match` succeeds iff the pattern matches at the beginning of the
string, without requiring it to consume the whole string. -/
def reMatch (pat : Regex) (s : String) : Bool :=
  pat.matchHere s.data

theorem reMatch_iff_prefix (pat : Regex) (s : String) :
    reMatch pat s = true ↔ ∃ n, pat.rmatch (s.data.take n) = true := by
  unfold reMatch
  generalize s.data = l
  induction l generalizing pat with
  | nil =>
    simp only [Regex.matchHere, List.take_nil]
    exact ⟨fun h => ⟨0, by simpa [Regex.rmatch] using h⟩,
           fun ⟨n, h⟩ => by simpa [Regex.rmatch] using h⟩
  | cons c cs ih =>
    simp only [Regex.matchHere, Bool.or_eq_true]
    constructor
    · rintro (h | h)
      · exact ⟨0, by simpa [Regex.rmatch] using h⟩
      · obtain ⟨n, hn⟩ := (ih _).mp h
        exact ⟨n + 1, by simpa [Regex.rmatch] using hn⟩
    · rintro ⟨n, hn⟩
      cases n with
      | zero => exact Or.inl (by simpa [Regex.rmatch] using hn)
      | succ n =>
        exact Or.inr ((ih _).mpr ⟨n, by simpa [Regex.rmatch] using hn⟩)

/-- Dynamically-typed Python values flowing through the scanner: repository
attribute values, rendered field values, and `None`.  `vDict` models the
language→bytes mapping returned by `get_languages`; `vActivity` models the
list of weekly commit-activity objects through their `.total` fields. -/
inductive PyVal where
  | vNone
  | vBool (b : Bool)
  | vInt (n : Int)
  | vStr (s : String)
  | vDict (entries : List (String × Int))
  | vActivity (weeks : List Int)
deriving DecidableEq, Repr

/-- Python truthiness of the embedded values. -/
def pyTruthy : PyVal → Bool
  | .vNone => false
  | .vBool b => b
  | .vInt n => decide (n ≠ 0)
  | .vStr s => decide (s ≠ "")
  | .vDict l => decide (l ≠ [])
  | .vActivity l => decide (l ≠ [])

/-- Python `str()` of the embedded values (the container cases are stand-in
renderings; the claims never rely on them). -/
def pyStr : PyVal → String
  | .vNone => "None"
  | .vBool b => if b then "True" else "False"
  | .vInt n => toString n
  | .vStr s => s
  | .vDict _ => "[dict]"
  | .vActivity _ => "[list]"

/-- Python `s.split(sep)` for a one-character separator, on character lists. -/
def splitChar (c : Char) : List Char → List (List Char)
  | [] => [[]]
  | x :: xs =>
    let rest := splitChar c xs
    if x = c then [] :: rest
    else
      match rest with
      | [] => [[x]]
      | w :: ws => (x :: w) :: ws

/-- Repository object handed out by the GitHub client: an identity plus the
`name` attribute that `scan_repos` reads directly (for sorting and for the
name filter).  All other attribute reads go through the getter parameter. -/
structure RepoObj where
  rid : Nat
  name : String
deriving DecidableEq, Repr

/-- Resolved owner (user or organization): its `login` and the repository
list produced by `owner.get_repos()`. -/
structure Owner where
  login : String
  repos : List RepoObj
deriving DecidableEq, Repr

/-- GitHub client facade: `get_organization` and `get_user`, each a network
call that may raise (`UnknownObjectException`, rate limit, credentials). -/
structure GH where
  get_organization : String → Except PyErr Owner
  get_user : String → Except PyErr Owner

/-- Python truthiness of an optional string argument, as used by
`filter(None, [org_name, user_name, owner_name])` and by
`if not owner_name` / `if org_name` (source lines 110-113): `None` and the
empty string are falsy. -/
def truthy : Option String → Bool
  | none => false
  | some s => !(s == "")

/-- Owner resolution (source lines 112-121): with `owner_name` falsy, use
`get_organization` on `org_name` if truthy else `get_user` on `user_name`;
with `owner_name` truthy, try the organization first and fall back to the
user lookup only on `UnknownObjectException` (any other error, and any error
of the fallback itself, propagates). -/
def resolveOwner (g : GH) (org_name user_name owner_name : Option String) :
    Except PyErr Owner :=
  if !truthy owner_name then
    if truthy org_name then g.get_organization (org_name.getD "")
    else g.get_user (user_name.getD "")
  else
    match g.get_organization (owner_name.getD "") with
    | .ok o => .ok o
    | .error .unknownObject => g.get_user (owner_name.getD "")
    | .error e => .error e

/-- Sort key comparison of `sorted(owner.get_repos(), key=lambda r: r.name.lower())`
(source line 122). -/
def repoLe (a b : RepoObj) : Bool :=
  decide (a.name.toLower ≤ b.name.toLower)

/-- Default field list of `scan_repos` (source lines 130-134). -/
def defaultFields : List String :=
  ["name", "private", "archived", "fork", "created_at",
   "issues", "contributors", "subscribers", "branches", "releases", "tags",
   "labels", "pulls", "downloads", "forks_count", "stargazers_count",
   "get_languages", "get_commits", "commit_activity"]

/-- Python `fields or default` (source line 130): `None` and `[]` both select
the default list. -/
def fieldsOrDefault : Option (List String) → List String
  | some (f :: fs) => f :: fs
  | _ => defaultFields

/-- Order in which the body of the per-repo loop of `scan_repos` checks and
inserts fields (source lines 138-181): the entry dict is built by a fixed
chain of `if <key> in fields:` blocks, so insertion order is this chain's
order, independent of the order of the caller's field list. -/
def dispatchOrder : List String :=
  ["name", "full_name", "private", "archived", "fork", "created_at",
   "issues", "contributors", "subscribers", "branches", "releases", "tags",
   "labels", "pulls", "downloads", "forks_count", "stargazers_count",
   "get_languages", "get_commits", "commits_1y", "commit_activity"]

/-- Attribute getter type: the `get = self.get_repo_attr` binding of source
line 135, as used inside the loop — always called as `get(repo, name)` or
`get(repo, name, total=True)`, and able to raise any exception of the
network layer. -/
def Getter : Type :=
  RepoObj → String → Bool → Except PyErr PyVal

/-- Value computed for one field of the entry dict, following the per-field
blocks of the loop body (source lines 138-181).  The `get_commits` block is
the single place with a bare `try/except` that degrades to `None`. -/
def fieldRule (get : Getter) (login : String) (repo : RepoObj) : String → Except PyErr PyVal
  | "name" =>
    match get repo "name" false with
    | .error e => .error e
    | .ok v =>
      .ok (.vStr ("<a href=\"https://github.com/" ++ login ++ "/" ++ pyStr v
        ++ "\">" ++ pyStr v ++ "</a>"))
  | "full_name" =>
    match get repo "full_name" false with
    | .error e => .error e
    | .ok v =>
      match splitChar '/' (pyStr v).data with
      | _ :: second :: _ =>
        .ok (.vStr ("<a href=\"https://github.com/" ++ login ++ "/"
          ++ String.mk second ++ "\">" ++ pyStr v ++ "</a>"))
      | _ => .error .indexError
  | "private" =>
    match get repo "private" false with
    | .error e => .error e
    | .ok v => .ok (.vStr (if pyTruthy v then "T" else "F"))
  | "archived" =>
    match get repo "archived" false with
    | .error e => .error e
    | .ok v => .ok (.vStr (if pyTruthy v then "T" else "F"))
  | "fork" =>
    match get repo "fork" false with
    | .error e => .error e
    | .ok v => .ok (.vStr (if pyTruthy v then "T" else "F"))
  | "created_at" => get repo "created_at" false
  | "issues" => get repo "get_issues" true
  | "contributors" => get repo "get_contributors" true
  | "subscribers" => get repo "get_subscribers" true
  | "branches" => get repo "get_branches" true
  | "releases" => get repo "get_releases" true
  | "tags" => get repo "get_tags" true
  | "labels" => get repo "get_labels" true
  | "pulls" => get repo "get_pulls" true
  | "downloads" => get repo "get_downloads" true
  | "forks_count" => get repo "forks_count" false
  | "stargazers_count" => get repo "stargazers_count" false
  | "get_languages" =>
    match get repo "get_languages" false with
    | .error e => .error e
    | .ok (.vDict entries) =>
      .ok (.vStr (String.intercalate ","
        ((entries.map Prod.fst).mergeSort (fun a b => decide (a ≤ b)))))
    | .ok _ => .error .attributeError
  | "get_commits" =>
    match get repo "get_commits" true with
    | .ok v => .ok v
    | .error _ => .ok .vNone
  | "commits_1y" =>
    match get repo "get_stats_commit_activity" false with
    | .error e => .error e
    | .ok res =>
      if pyTruthy res then
        match res with
        | .vActivity weeks => .ok (.vInt (weeks.foldl (· + ·) 0))
        | _ => .error .typeError
      else .ok (.vInt 0)
  | "commit_activity" =>
    match get repo "get_stats_commit_activity" false with
    | .error e => .error e
    | .ok res =>
      if pyTruthy res then
        match res with
        | .vActivity weeks =>
          match sparkline_svg weeks false (some 100) 15 "#8cc665" 2 with
          | .ok svg => .ok (.vStr svg)
          | .error e => .error e
        | _ => .error .typeError
      else .ok (.vStr "")
  | _ => .ok .vNone

/-- Builds the entry dict by walking the fixed dispatch chain: each key whose
name is in `fields` contributes its field value, in chain order; the first
failing field resolution aborts the entry (source lines 137-181). -/
def entryFields (get : Getter) (login : String) (repo : RepoObj)
    (fields : List String) : List String → Except PyErr (List (String × PyVal))
  | [] => .ok []
  | k :: ks =>
    if k ∈ fields then
      match fieldRule get login repo k with
      | .error e => .error e
      | .ok v =>
        match entryFields get login repo fields ks with
        | .error e => .error e
        | .ok rest => .ok ((k, v) :: rest)
    else entryFields get login repo fields ks

/-- Entry dict of one repository before callbacks are applied. -/
def builtinEntry (get : Getter) (login : String) (fields : List String)
    (repo : RepoObj) : Except PyErr (List (String × PyVal)) :=
  entryFields get login repo fields dispatchOrder

/-- Python `dict` assignment `d[k] = v` on an insertion-ordered association
list: overwrite in place if the key exists, else append. -/
def dictSet (d : List (String × PyVal)) (k : String) (v : PyVal) :
    List (String × PyVal) :=
  match d with
  | [] => [(k, v)]
  | (k', v') :: rest => if k' = k then (k, v) :: rest else (k', v') :: dictSet rest k v

/-- Python `d.update(u)` on insertion-ordered association lists. -/
def dictUpdate (d u : List (String × PyVal)) : List (String × PyVal) :=
  u.foldl (fun acc kv => dictSet acc kv.1 kv.2) d

/-- Application of the caller-supplied callbacks
(`entry.update(cb(self, repo))`, source lines 182-184). -/
def applyCallbacks (callbacks : List (RepoObj → List (String × PyVal)))
    (repo : RepoObj) (entry : List (String × PyVal)) : List (String × PyVal) :=
  callbacks.foldl (fun e cb => dictUpdate e (cb repo)) entry

/-- Entry dict of one repository, callbacks included. -/
def buildEntry (get : Getter) (login : String) (fields : List String)
    (callbacks : List (RepoObj → List (String × PyVal))) (repo : RepoObj) :
    Except PyErr (List (String × PyVal)) :=
  match builtinEntry get login fields repo with
  | .error e => .error e
  | .ok entry => .ok (applyCallbacks callbacks repo entry)

/-- One value yielded by the `scan_repos` generator: the leading repository
list (the "HACK" yield of source line 125), or one per-repository record. -/
inductive Yield where
  | repoList (rs : List RepoObj)
  | record (entry : List (String × PyVal))
deriving DecidableEq, Repr

/-- Record-yielding tail of the generator (the `for` loop of source lines
136-185): one record per repository until the first uncaught exception,
which ends the generator. -/
def scanRecords (get : Getter) (login : String) (fields : List String)
    (callbacks : List (RepoObj → List (String × PyVal))) :
    List RepoObj → List Yield × Option PyErr
  | [] => ([], none)
  | r :: rs =>
    match buildEntry get login fields callbacks r with
    | .error e => ([], some e)
    | .ok entry =>
      let rest := scanRecords get login fields callbacks rs
      (.record entry :: rest.1, rest.2)

/-- Embedding of `scan_repos` (source lines 85-185) as the list of values the
generator yields plus the exception, if any, that ends it.  The `assert` on
the owner selector (line 110) fires before any client call; on success the
sorted repository list is yielded first (line 125), the name filter is
applied only afterwards (lines 128-129), and records stream until the first
uncaught error. -/
def scan_repos (g : GH) (get : Getter)
    (org_name user_name owner_name : Option String)
    (repo_name_pat : Option Regex)
    (fields : Option (List String))
    (callbacks : List (RepoObj → List (String × PyVal))) :
    List Yield × Option PyErr :=
  if ([org_name, user_name, owner_name].countP truthy) ≠ 1 then
    ([], some .assertionError)
  else
    match resolveOwner g org_name user_name owner_name with
    | .error e => ([], some e)
    | .ok owner =>
      let repos := owner.repos.mergeSort repoLe
      let matched :=
        match repo_name_pat with
        | some pat => repos.filter (fun r => reMatch pat r.name)
        | none => repos
      let rest := scanRecords get owner.login (fieldsOrDefault fields) callbacks matched
      (.repoList repos :: rest.1, rest.2)

/-- Attribute slot of a repository object, as `repo.__getattribute__(name)`
sees it (source line 78): either a plain value or a bound method that takes
positional and keyword arguments and may raise. -/
inductive AttrVal (V : Type) where
  | plain (v : V)
  | method (f : List V → List (String × V) → Except PyErr V)

/-- Repository object as seen by `get_repo_attr`: its attribute table.
Looking up a missing name raises `AttributeError`. -/
structure CRepo (V : Type) where
  getattr : String → Option (AttrVal V)

/-- Uncached body of `get_repo_attr` (source lines 78-83): fetch the
attribute; if it is a method, call it with `args`/`kwargs` and, when `total`
is set, read `.totalCount` off the result (`tc`, raising `AttributeError`
when absent); a plain attribute is returned as-is (`total` is ignored). -/
def get_repo_attr_raw {V : Type} (tc : V → Option V) (repo : CRepo V)
    (name : String) (total : Bool) (args : List V) (kwargs : List (String × V)) :
    Except PyErr V :=
  match repo.getattr name with
  | none => .error .attributeError
  | some (.plain v) => .ok v
  | some (.method f) =>
    match f args kwargs with
    | .error e => .error e
    | .ok res =>
      if total then
        match tc res with
        | some t => .ok t
        | none => .error .attributeError
      else .ok res

/-- Call signature the `@cached` decorator keys on: repository identity,
attribute name, `total` flag, positional and keyword arguments. -/
structure Sig (V : Type) where
  rid : Nat
  name : String
  total : Bool
  args : List V
  kwargs : List (String × V)
deriving DecidableEq

/-- State of the memoization cache: stored entries plus a counter of how many
times the underlying (uncached) computation has been invoked. -/
structure CState (K V : Type) where
  cache : List (K × V)
  calls : Nat
deriving DecidableEq

/-- The `@cached` decorator of the `memoization` library: return the stored
value when the key is present; otherwise invoke the underlying computation,
store the result on success, and propagate (without storing) on failure. -/
def cachedCall {K V : Type} [DecidableEq K] (f : K → Except PyErr V)
    (s : CState K V) (k : K) : Except PyErr V × CState K V :=
  match s.cache.find? (fun kv => kv.1 = k) with
  | some kv => (.ok kv.2, s)
  | none =>
    match f k with
    | .ok v => (.ok v, ⟨(k, v) :: s.cache, s.calls + 1⟩)
    | .error e => (.error e, ⟨s.cache, s.calls + 1⟩)

/-- Embedding of `get_repo_attr` (source lines 52-83): the memoized resolver.
`world` maps a repository identity to its current attribute table, so that
two calls made against different `world`/`tc` arguments model an underlying
data source that changed between the calls while the cache persisted. -/
def get_repo_attr {V : Type} [DecidableEq V] (tc : V → Option V)
    (world : Nat → CRepo V) (s : CState (Sig V) V) (sig : Sig V) :
    Except PyErr V × CState (Sig V) V :=
  cachedCall
    (fun sg => get_repo_attr_raw tc (world sg.rid) sg.name sg.total sg.args sg.kwargs)
    s sig

theorem enumF_length {α : Type} (i : Nat) (l : List α) :
    (enumF i l).length = l.length := by
  induction l generalizing i with
  | nil => rfl
  | cons a as ih => simp [enumF, ih]

theorem enumF_mem_snd {α : Type} {i : Nat} {l : List α} {iv : Nat × α}
    (h : iv ∈ enumF i l) : iv.2 ∈ l := by
  induction l generalizing i with
  | nil => simp [enumF] at h
  | cons a as ih =>
    simp only [enumF, List.mem_cons] at h
    rcases h with h | h
    · simp [h]
    · exact List.mem_cons_of_mem _ (ih h)

theorem foldl_min_le (d : Int) (ds : List Int) : ∀ v ∈ d :: ds, ds.foldl min d ≤ v := by
  induction ds generalizing d with
  | nil => intro v hv; simp at hv; simp [hv]
  | cons a as ih =>
    intro v hv
    simp only [List.mem_cons] at hv
    simp only [List.foldl_cons]
    have hmind : as.foldl min (min d a) ≤ min d a := ih (min d a) _ (List.mem_cons_self _ _)
    rcases hv with h | h | h
    · exact le_trans hmind (le_trans (min_le_left _ _) (le_of_eq h.symm))
    · exact le_trans hmind (le_trans (min_le_right _ _) (le_of_eq h.symm))
    · exact ih (min d a) v (List.mem_cons_of_mem _ h)

theorem le_foldl_max (d : Int) (ds : List Int) : ∀ v ∈ d :: ds, v ≤ ds.foldl max d := by
  induction ds generalizing d with
  | nil => intro v hv; simp at hv; simp [hv]
  | cons a as ih =>
    intro v hv
    simp only [List.mem_cons] at hv
    simp only [List.foldl_cons]
    have hmaxd : max d a ≤ as.foldl max (max d a) := ih (max d a) _ (List.mem_cons_self _ _)
    rcases hv with h | h | h
    · exact le_trans (le_of_eq h) (le_trans (le_max_left _ _) hmaxd)
    · exact le_trans (le_of_eq h) (le_trans (le_max_right _ _) hmaxd)
    · exact ih (max d a) v (List.mem_cons_of_mem _ h)

theorem foldl_min_of_const {d : Int} {ds : List Int} (h : ∀ v ∈ ds, v = d) :
    ds.foldl min d = d := by
  induction ds with
  | nil => rfl
  | cons a as ih =>
    have ha : a = d := h a (List.mem_cons_self _ _)
    subst ha
    simp only [List.foldl_cons, min_self]
    exact ih (fun v hv => h v (List.mem_cons_of_mem _ hv))

theorem foldl_max_of_const {d : Int} {ds : List Int} (h : ∀ v ∈ ds, v = d) :
    ds.foldl max d = d := by
  induction ds with
  | nil => rfl
  | cons a as ih =>
    have ha : a = d := h a (List.mem_cons_self _ _)
    subst ha
    simp only [List.foldl_cons, max_self]
    exact ih (fun v hv => h v (List.mem_cons_of_mem _ hv))

theorem pointsFlat_eq (n w h : ℚ) (hn : n ≠ 0) (l : List (Nat × Int)) :
    pointsFlat n w h l = .ok (l.map (fun iv => ((iv.1 : ℚ) / n * w, h - 1))) := by
  induction l with
  | nil => rfl
  | cons iv rest ih => cases iv with | mk i val => simp [pointsFlat, pyDiv, hn, ih]

theorem pointsScaled_eq (n w h : ℚ) (max_ : Int) (hn : n ≠ 0)
    (hm : (max_ : ℚ) ≠ 0) (l : List (Nat × Int)) :
    pointsScaled n w h max_ l =
      .ok (l.map (fun iv =>
        ((iv.1 : ℚ) / n * w, ((max_ : ℚ) - (iv.2 : ℚ)) / (max_ : ℚ) * h))) := by
  induction l with
  | nil => rfl
  | cons iv rest ih => cases iv with | mk i val => simp [pointsScaled, pyDiv, hn, hm, ih]

theorem length_cons_ne_zero {α : Type} (d : α) (ds : List α) :
    (((d :: ds).length : ℚ)) ≠ 0 := by
  simp only [List.length_cons]
  exact_mod_cast Nat.succ_ne_zero ds.length

/-- C9: on the empty input sequence `sparkline_svg` does not return a markup
string: `min(data)` raises `ValueError`, so the call fails. -/
theorem sparkline_svg_empty_fails (ae : Bool) (w? : Option ℚ) (h : ℚ)
    (stroke : String) (wt : ℚ) :
    sparkline_svg [] ae w? h stroke wt = .error .valueError := rfl

/-- C10: the non-constant branch of `sparkline_svg` divides by the maximum of
the data, not by the value range, so a non-constant input whose maximum is
exactly 0 raises `ZeroDivisionError` instead of returning markup. -/
theorem sparkline_svg_max_zero_fails (d : Int) (ds : List Int) (ae : Bool)
    (w? : Option ℚ) (h : ℚ) (stroke : String) (wt : ℚ)
    (hne : ds.foldl min d ≠ ds.foldl max d) (h0 : ds.foldl max d = 0) :
    sparkline_svg (d :: ds) ae w? h stroke wt = .error .zeroDivisionError := by
  have hn : ((ds.length : ℚ) + 1) ≠ 0 := by positivity
  have hne0 : ds.foldl min d ≠ 0 := by rw [← h0]; exact hne
  simp [sparkline_svg, sparklinePoints, hne, h0, hne0, enumF, pointsScaled, pyDiv, hn]

/-- C10 witness: the input `[-1, 0]` is non-constant with maximum 0 and makes
the call fail with `ZeroDivisionError`. -/
theorem sparkline_svg_max_zero_fails_witness :
    ([0] : List Int).foldl min (-1) ≠ ([0] : List Int).foldl max (-1) ∧
    sparkline_svg [-1, 0] false none 10 "#8cc665" 2 = .error .zeroDivisionError :=
  ⟨by decide, sparkline_svg_max_zero_fails (-1) [0] false none 10 "#8cc665" 2
    (by decide) (by decide)⟩

/-- C8: on a non-empty constant input sequence `sparkline_svg` performs no
division by zero: it takes the flat branch and produces one point per input
element, each with y-coordinate `height - 1`, one unit above the bottom edge. -/
theorem sparkline_svg_constant_flat (d : Int) (ds : List Int) (w : ℚ) (ae : Bool)
    (w? : Option ℚ) (h : ℚ) (stroke : String) (wt : ℚ)
    (hconst : ∀ v ∈ ds, v = d) :
    sparklinePoints (d :: ds) w h =
      .ok ((enumF 0 (d :: ds)).map
        (fun iv => ((iv.1 : ℚ) / ((d :: ds).length : ℚ) * w, h - 1)))
    ∧ ((enumF 0 (d :: ds)).map
        (fun iv => ((iv.1 : ℚ) / ((d :: ds).length : ℚ) * w, h - 1))).length
        = (d :: ds).length
    ∧ (∀ p ∈ (enumF 0 (d :: ds)).map
        (fun iv => ((iv.1 : ℚ) / ((d :: ds).length : ℚ) * w, h - 1)), p.2 = h - 1)
    ∧ (sparkline_svg (d :: ds) ae w? h stroke wt).isOk = true := by
  have hn := length_cons_ne_zero d ds
  have hmm : ds.foldl min d = ds.foldl max d :=
    (foldl_min_of_const hconst).trans (foldl_max_of_const hconst).symm
  have hpts : ∀ w' : ℚ, sparklinePoints (d :: ds) w' h =
      .ok ((enumF 0 (d :: ds)).map
        (fun iv => ((iv.1 : ℚ) / ((d :: ds).length : ℚ) * w', h - 1))) := by
    intro w'
    simp only [sparklinePoints]
    rw [if_neg (by simp [hmm]), pointsFlat_eq _ _ _ hn]
  refine ⟨hpts w, by simp [enumF_length], ?_, ?_⟩
  · intro p hp
    simp only [List.mem_map] at hp
    obtain ⟨iv, _, rfl⟩ := hp
    rfl
  · simp [sparkline_svg, hpts, Except.isOk, Except.toBool]

/-- C8 witness: the constant input `[5, 5, 5]` yields three flat points. -/
theorem sparkline_svg_constant_flat_witness :
    (∀ v ∈ ([5, 5] : List Int), v = 5) ∧
    sparklinePoints [5, 5, 5] 3 10 =
      .ok ((enumF 0 ([5, 5, 5] : List Int)).map
        (fun iv => ((iv.1 : ℚ) / ((([5, 5, 5] : List Int)).length : ℚ) * 3, 10 - 1))) :=
  ⟨by decide,
   (sparkline_svg_constant_flat 5 [5, 5] 3 false none 10 "#8cc665" 2 (by decide)).1⟩

/-- C5 counterexample: the claim places the minimum of a non-constant input at
the bottom edge of the plotted height and asserts no point leaves the range
`0..height`, but the code scales by dividing by the maximum, not by the value
range.  On `[1, 2]` with height 10 the minimum value 1 is placed at y = 5,
not at the bottom edge 10; on `[-1, 1]` the point for -1 is placed at y = 20,
outside `0..10`. -/
theorem sparkline_min_not_bottom_cex :
    sparklinePoints [1, 2] 2 10 = .ok [(0, 5), (1, 0)]
    ∧ ((5 : ℚ) ≠ 10)
    ∧ sparklinePoints [-1, 1] 2 10 = .ok [(0, 20), (1, 0)]
    ∧ ¬((20 : ℚ) ≤ 10) := by
  refine ⟨?_, by norm_num, ?_, by norm_num⟩
  · rw [show sparklinePoints [1, 2] 2 10 =
      pointsScaled ((2 : Nat) : ℚ) 2 10 2 (enumF 0 [1, 2]) by rfl]
    rw [pointsScaled_eq _ _ _ _ (by norm_num) (by norm_num)]
    simp [enumF]
    norm_num
  · rw [show sparklinePoints [-1, 1] 2 10 =
      pointsScaled ((2 : Nat) : ℚ) 2 10 1 (enumF 0 [-1, 1]) by rfl]
    rw [pointsScaled_eq _ _ _ _ (by norm_num) (by norm_num)]
    simp [enumF]
    norm_num

/-- C5 amended: on a non-constant input the code scales each value `v` to
`y = (max - v)/max * height`, with x positions evenly spaced by index.  The
maximum is always placed at the top edge (y = 0); the minimum lands on the
bottom edge — and all points stay inside `0..height` — when the minimum
observed value is 0 (as for the commit-activity series the caller feeds it),
since the scaling divides by the maximum rather than the value range. -/
theorem sparkline_svg_scaling_min_zero (d : Int) (ds : List Int) (w h : ℚ)
    (hmin : ds.foldl min d = 0) (hmax : ds.foldl max d ≠ 0) (hh : 0 ≤ h) :
    sparklinePoints (d :: ds) w h =
      .ok ((enumF 0 (d :: ds)).map (fun iv =>
        ((iv.1 : ℚ) / ((d :: ds).length : ℚ) * w,
         (((ds.foldl max d : Int) : ℚ) - (iv.2 : ℚ)) / ((ds.foldl max d : Int) : ℚ) * h)))
    ∧ (∀ iv ∈ enumF 0 (d :: ds), iv.2 = ds.foldl max d →
        (((ds.foldl max d : Int) : ℚ) - (iv.2 : ℚ)) / ((ds.foldl max d : Int) : ℚ) * h = 0)
    ∧ (∀ iv ∈ enumF 0 (d :: ds), iv.2 = 0 →
        (((ds.foldl max d : Int) : ℚ) - (iv.2 : ℚ)) / ((ds.foldl max d : Int) : ℚ) * h = h)
    ∧ (∀ p ∈ (enumF 0 (d :: ds)).map (fun iv =>
        ((iv.1 : ℚ) / ((d :: ds).length : ℚ) * w,
         (((ds.foldl max d : Int) : ℚ) - (iv.2 : ℚ)) / ((ds.foldl max d : Int) : ℚ) * h)),
        0 ≤ p.2 ∧ p.2 ≤ h) := by
  have hn := length_cons_ne_zero d ds
  have hmQ : ((ds.foldl max d : Int) : ℚ) ≠ 0 := Int.cast_ne_zero.mpr hmax
  have hmaxpos : (0 : Int) < ds.foldl max d := by
    have h1 : ds.foldl min d ≤ ds.foldl max d :=
      le_trans (foldl_min_le d ds d (List.mem_cons_self _ _))
        (le_foldl_max d ds d (List.mem_cons_self _ _))
    rw [hmin] at h1
    exact lt_of_le_of_ne h1 (Ne.symm hmax)
  have hmQpos : (0 : ℚ) < ((ds.foldl max d : Int) : ℚ) := by exact_mod_cast hmaxpos
  have hne : ds.foldl min d ≠ ds.foldl max d := by
    rw [hmin]; exact fun hc => hmax hc.symm
  refine ⟨?_, ?_, ?_, ?_⟩
  · simp only [sparklinePoints, if_pos hne]
    exact pointsScaled_eq _ _ _ _ hn hmQ _
  · intro iv _ hv
    rw [hv]
    simp
  · intro iv _ hv
    rw [hv]
    simp [div_self hmQ]
  · intro p hp
    simp only [List.mem_map] at hp
    obtain ⟨iv, hiv, rfl⟩ := hp
    have hvmem : iv.2 ∈ d :: ds := enumF_mem_snd hiv
    have hv0 : (0 : Int) ≤ iv.2 := by
      have := foldl_min_le d ds iv.2 hvmem
      rwa [hmin] at this
    have hvmax : iv.2 ≤ ds.foldl max d := le_foldl_max d ds iv.2 hvmem
    have hv0Q : (0 : ℚ) ≤ ((iv.2 : Int) : ℚ) := by exact_mod_cast hv0
    have hvmaxQ : ((iv.2 : Int) : ℚ) ≤ ((ds.foldl max d : Int) : ℚ) := by
      exact_mod_cast hvmax
    constructor
    · exact mul_nonneg (div_nonneg (sub_nonneg.mpr hvmaxQ) (le_of_lt hmQpos)) hh
    · have hq1 : (((ds.foldl max d : Int) : ℚ) - ((iv.2 : Int) : ℚ))
          / ((ds.foldl max d : Int) : ℚ) ≤ 1 := by
        rw [div_le_one hmQpos]
        exact sub_le_self _ hv0Q
      calc (((ds.foldl max d : Int) : ℚ) - ((iv.2 : Int) : ℚ))
            / ((ds.foldl max d : Int) : ℚ) * h ≤ 1 * h :=
        mul_le_mul_of_nonneg_right hq1 hh
        _ = h := one_mul h

/-- C5 amended witness: on `[0, 2]` with width 2 and height 10 the theorem
applies: minimum 0, maximum 2. -/
theorem sparkline_svg_scaling_min_zero_witness :
    ([2] : List Int).foldl min 0 = 0 ∧ ([2] : List Int).foldl max 0 ≠ 0 ∧
    ((0 : ℚ) ≤ 10) ∧
    sparklinePoints [0, 2] 2 10 =
      .ok ((enumF 0 ([0, 2] : List Int)).map (fun iv =>
        ((iv.1 : ℚ) / ((([0, 2] : List Int)).length : ℚ) * 2,
         (((([2] : List Int).foldl max 0 : Int) : ℚ) - (iv.2 : ℚ))
           / ((([2] : List Int).foldl max 0 : Int) : ℚ) * 10))) :=
  ⟨by decide, by decide, by decide,
   (sparkline_svg_scaling_min_zero 0 [2] 2 10 (by decide) (by decide) (by decide)).1⟩

theorem find?_cons_self {K V : Type} [DecidableEq K] (k : K) (v : V)
    (c : List (K × V)) :
    ((k, v) :: c).find? (fun kv => kv.1 = k) = some (k, v) :=
  List.find?_cons_of_pos _ (by simp)

theorem cachedCall_second_call {K V : Type} [DecidableEq K]
    (f₁ f₂ : K → Except PyErr V) (s : CState K V) (k : K) (v : V)
    (h : (cachedCall f₁ s k).1 = .ok v) :
    cachedCall f₂ (cachedCall f₁ s k).2 k = (.ok v, (cachedCall f₁ s k).2)
    ∧ (cachedCall f₁ s k).2.calls ≤ s.calls + 1 := by
  unfold cachedCall at h ⊢
  cases hfind : s.cache.find? (fun kv => kv.1 = k) with
  | some kv =>
    rw [hfind] at h
    simp at h
    subst h
    simp [hfind]
  | none =>
    rw [hfind] at h
    cases hf : f₁ k with
    | error e => rw [hf] at h; simp at h
    | ok u =>
      rw [hf] at h
      simp at h
      subst h
      simp [hfind, hf, find?_cons_self]

/-- C1: calling `get_repo_attr` twice with the identical
`(repo, name, total, args, kwargs)` signature invokes the underlying
accessor at most once.  Provided the first call resolved a value, the second
call returns that same value and leaves the resolver state — in particular
the accessor-invocation counter — unchanged, even when the underlying data
source (`world`/`tc`) changed arbitrarily between the calls. -/
theorem get_repo_attr_cached_second_call {V : Type} [DecidableEq V]
    (tc₁ tc₂ : V → Option V) (w₁ w₂ : Nat → CRepo V) (s : CState (Sig V) V)
    (sig : Sig V) (v : V)
    (h : (get_repo_attr tc₁ w₁ s sig).1 = .ok v) :
    (get_repo_attr tc₂ w₂ (get_repo_attr tc₁ w₁ s sig).2 sig).1 = .ok v
    ∧ (get_repo_attr tc₂ w₂ (get_repo_attr tc₁ w₁ s sig).2 sig).2
        = (get_repo_attr tc₁ w₁ s sig).2
    ∧ (get_repo_attr tc₁ w₁ s sig).2.calls ≤ s.calls + 1 := by
  unfold get_repo_attr at h ⊢
  have h2 := cachedCall_second_call
    (fun sg => get_repo_attr_raw tc₁ (w₁ sg.rid) sg.name sg.total sg.args sg.kwargs)
    (fun sg => get_repo_attr_raw tc₂ (w₂ sg.rid) sg.name sg.total sg.args sg.kwargs)
    s sig v h
  refine ⟨?_, ?_, h2.2⟩
  · rw [h2.1]
  · rw [h2.1]

/-- C1 witness: a concrete world whose attribute value changes from 7 to 9
between the calls; the second call still returns the cached 7 and performs
no further accessor invocation. -/
theorem get_repo_attr_cached_second_call_witness :
    ((get_repo_attr (fun _ => none) (fun _ => ⟨fun _ => some (.plain 7)⟩)
        (⟨[], 0⟩ : CState (Sig Nat) Nat) ⟨0, "size", false, [], []⟩).1 = .ok 7)
    ∧ ((get_repo_attr (fun _ => none) (fun _ => ⟨fun _ => some (.plain (9 : Nat))⟩)
        ((get_repo_attr (fun _ => none) (fun _ => ⟨fun _ => some (.plain 7)⟩)
          (⟨[], 0⟩ : CState (Sig Nat) Nat) ⟨0, "size", false, [], []⟩).2)
        ⟨0, "size", false, [], []⟩).1 = .ok 7) := by
  have h : (get_repo_attr (fun _ => none) (fun _ => ⟨fun _ => some (.plain 7)⟩)
      (⟨[], 0⟩ : CState (Sig Nat) Nat) ⟨0, "size", false, [], []⟩).1 = .ok 7 := rfl
  exact ⟨h, (get_repo_attr_cached_second_call (fun _ => none) (fun _ => none)
    (fun _ => ⟨fun _ => some (.plain 7)⟩) (fun _ => ⟨fun _ => some (.plain 9)⟩)
    ⟨[], 0⟩ ⟨0, "size", false, [], []⟩ 7 h).1⟩

/-- Concrete getter for witnesses: every attribute resolves to the integer 3. -/
def demoGet : Getter := fun _ _ _ => .ok (.vInt 3)

/-- Concrete client for witnesses: organization lookups resolve to an owner
`o` having the single repository `r`; user lookups fail. -/
def demoGH : GH :=
  ⟨fun _ => .ok ⟨"o", [⟨0, "r"⟩]⟩, fun _ => .error .unknownObject⟩

/-- C6: when zero of the owner selectors, or more than one of them, is
supplied non-empty, advancing the generator fails the validation assertion
(source line 110).  The outcome is the same for every client `g` and getter,
so no owner lookup or repository listing is performed. -/
theorem scan_repos_selector_assert (g : GH) (get : Getter)
    (org_name user_name owner_name : Option String) (pat : Option Regex)
    (fields : Option (List String)) (cbs : List (RepoObj → List (String × PyVal)))
    (hsel : ([org_name, user_name, owner_name].countP truthy) ≠ 1) :
    scan_repos g get org_name user_name owner_name pat fields cbs
      = ([], some .assertionError) := by
  simp [scan_repos, hsel]

/-- C6 witness: both an organization and a user name supplied. -/
theorem scan_repos_selector_assert_witness :
    (([some "a", some "b", none] : List (Option String)).countP truthy) ≠ 1
    ∧ scan_repos demoGH demoGet (some "a") (some "b") none none none []
        = ([], some .assertionError) :=
  ⟨by decide, scan_repos_selector_assert demoGH demoGet (some "a") (some "b")
    none none none [] (by decide)⟩

/-- C2: with a valid selector and a resolved owner, the first yielded element
is always the full repository list sorted case-insensitively by lowercase
name — a permutation of the owner's repositories, pairwise ordered by
lowercase name — independent of any name-filter pattern `pat`, which affects
only later elements. -/
theorem scan_repos_first_yield_sorted (g : GH) (get : Getter)
    (org_name user_name owner_name : Option String) (pat : Option Regex)
    (fields : Option (List String)) (cbs : List (RepoObj → List (String × PyVal)))
    (O : Owner)
    (hsel : ([org_name, user_name, owner_name].countP truthy) = 1)
    (hres : resolveOwner g org_name user_name owner_name = .ok O) :
    (scan_repos g get org_name user_name owner_name pat fields cbs).1.head?
      = some (.repoList (O.repos.mergeSort repoLe))
    ∧ (O.repos.mergeSort repoLe).Perm O.repos
    ∧ (O.repos.mergeSort repoLe).Pairwise
        (fun a b => a.name.toLower ≤ b.name.toLower) := by
  have htrans : ∀ a b c : RepoObj,
      repoLe a b = true → repoLe b c = true → repoLe a c = true := by
    intro a b c hab hbc
    simp only [repoLe, decide_eq_true_eq] at hab hbc ⊢
    exact le_trans hab hbc
  have htot : ∀ a b : RepoObj, (repoLe a b || repoLe b a) = true := by
    intro a b
    simp only [repoLe, Bool.or_eq_true, decide_eq_true_eq]
    exact le_total _ _
  refine ⟨?_, List.mergeSort_perm _ _, ?_⟩
  · simp [scan_repos, hsel, hres]
  · exact (List.sorted_mergeSort htrans htot O.repos).imp
      (fun hab => by simpa [repoLe, decide_eq_true_eq] using hab)

/-- C2 witness: a concrete owner with one repository, scanned with a filter
pattern supplied; the first yield is still the full sorted list. -/
theorem scan_repos_first_yield_sorted_witness :
    (([none, none, some "o"] : List (Option String)).countP truthy = 1)
    ∧ resolveOwner demoGH none none (some "o") = .ok ⟨"o", [⟨0, "r"⟩]⟩
    ∧ (scan_repos demoGH demoGet none none (some "o") (some (.chr 'x')) none []).1.head?
        = some (.repoList ((Owner.mk "o" [⟨0, "r"⟩]).repos.mergeSort repoLe)) :=
  ⟨by decide, rfl,
   (scan_repos_first_yield_sorted demoGH demoGet none none (some "o")
     (some (.chr 'x')) none [] ⟨"o", [⟨0, "r"⟩]⟩ (by decide) rfl).1⟩

/-- C7: with a name pattern supplied, the record-producing repositories are
exactly those of the sorted list whose name passes `re.match`: the records in
the output are the records of the matching repositories in order, a
repository whose name does not match never contributes a record, and the
match is anchored at the start of the name without having to span it — it
succeeds exactly when some prefix of the name matches the pattern. -/
theorem scan_repos_name_filter (g : GH) (get : Getter)
    (org_name user_name owner_name : Option String) (pat : Regex)
    (fields : Option (List String)) (cbs : List (RepoObj → List (String × PyVal)))
    (O : Owner)
    (hsel : ([org_name, user_name, owner_name].countP truthy) = 1)
    (hres : resolveOwner g org_name user_name owner_name = .ok O) :
    (scan_repos g get org_name user_name owner_name (some pat) fields cbs).1
      = .repoList (O.repos.mergeSort repoLe)
        :: (scanRecords get O.login (fieldsOrDefault fields) cbs
             ((O.repos.mergeSort repoLe).filter (fun r => reMatch pat r.name))).1
    ∧ (scan_repos g get org_name user_name owner_name (some pat) fields cbs).2
      = (scanRecords get O.login (fieldsOrDefault fields) cbs
          ((O.repos.mergeSort repoLe).filter (fun r => reMatch pat r.name))).2
    ∧ (∀ r ∈ (O.repos.mergeSort repoLe).filter (fun r => reMatch pat r.name),
        reMatch pat r.name = true)
    ∧ (∀ r ∈ O.repos.mergeSort repoLe, reMatch pat r.name = false →
        r ∉ (O.repos.mergeSort repoLe).filter (fun r => reMatch pat r.name))
    ∧ (∀ s : String, reMatch pat s = true ↔ ∃ n, pat.rmatch (s.data.take n) = true) := by
  refine ⟨?_, ?_, ?_, ?_, fun s => reMatch_iff_prefix pat s⟩
  · simp [scan_repos, hsel, hres]
  · simp [scan_repos, hsel, hres]
  · intro r hr
    exact (List.mem_filter.mp hr).2
  · intro r _ hfalse hmem
    have hm := (List.mem_filter.mp hmem).2
    rw [hfalse] at hm
    exact Bool.false_ne_true hm

/-- C7 witness: pattern `r` against the single repository `r`. -/
theorem scan_repos_name_filter_witness :
    (([none, none, some "o"] : List (Option String)).countP truthy = 1)
    ∧ (scan_repos demoGH demoGet none none (some "o") (some (.chr 'r')) none []).1
        = .repoList ((Owner.mk "o" [⟨0, "r"⟩]).repos.mergeSort repoLe)
          :: (scanRecords demoGet (Owner.mk "o" [⟨0, "r"⟩]).login
               (fieldsOrDefault none) []
               (((Owner.mk "o" [⟨0, "r"⟩]).repos.mergeSort repoLe).filter
                 (fun r => reMatch (.chr 'r') r.name))).1 :=
  ⟨by decide,
   (scan_repos_name_filter demoGH demoGet none none (some "o") (.chr 'r')
     none [] ⟨"o", [⟨0, "r"⟩]⟩ (by decide) rfl).1⟩

theorem entryFields_keys (get : Getter) (login : String) (r : RepoObj)
    (fields : List String) : ∀ (ks : List String) (entry : List (String × PyVal)),
    entryFields get login r fields ks = .ok entry →
    entry.map Prod.fst = ks.filter (fun k => decide (k ∈ fields)) := by
  intro ks
  induction ks with
  | nil =>
    intro entry h
    simp only [entryFields, Except.ok.injEq] at h
    subst h
    rfl
  | cons k ks ih =>
    intro entry h
    simp only [entryFields] at h
    by_cases hk : k ∈ fields
    · rw [if_pos hk] at h
      cases hrule : fieldRule get login r k with
      | error e => rw [hrule] at h; exact absurd h (by simp)
      | ok v =>
        rw [hrule] at h
        cases hrest : entryFields get login r fields ks with
        | error e => rw [hrest] at h; exact absurd h (by simp)
        | ok rest =>
          rw [hrest] at h
          simp only [Except.ok.injEq] at h
          subst h
          simp [List.filter_cons, hk, ih rest hrest]
    · rw [if_neg hk] at h
      simp [List.filter_cons, hk, ih entry h]

theorem scanRecords_mem_record (get : Getter) (login : String)
    (fields : List String) (cbs : List (RepoObj → List (String × PyVal))) :
    ∀ (rs : List RepoObj) (entry : List (String × PyVal)),
    Yield.record entry ∈ (scanRecords get login fields cbs rs).1 →
    ∃ r ∈ rs, buildEntry get login fields cbs r = .ok entry := by
  intro rs
  induction rs with
  | nil => intro entry h; simp [scanRecords] at h
  | cons r rs ih =>
    intro entry h
    simp only [scanRecords] at h
    cases hb : buildEntry get login fields cbs r with
    | error e => rw [hb] at h; simp at h
    | ok en =>
      rw [hb] at h
      simp only [List.mem_cons] at h
      rcases h with h | h
      · have he : entry = en := by injection h
        exact ⟨r, List.mem_cons_self _ _, by rw [hb, he]⟩
      · obtain ⟨r', hr', hb'⟩ := ih entry h
        exact ⟨r', List.mem_cons_of_mem _ hr', hb'⟩

theorem applyCallbacks_nil (r : RepoObj) (entry : List (String × PyVal)) :
    applyCallbacks [] r entry = entry := rfl

/-- C4 amended: with no callbacks, the keys of every yielded record appear in
the fixed order of the code's field-dispatch chain (`dispatchOrder`)
restricted to the supplied fields — not in the order of the caller's field
list.  The two orders agree exactly when the caller lists fields in dispatch
order. -/
theorem scan_repos_record_key_order (g : GH) (get : Getter)
    (org_name user_name owner_name : Option String) (pat : Option Regex)
    (fields : List String) (entry : List (String × PyVal))
    (hne : fields ≠ [])
    (hmem : Yield.record entry ∈
      (scan_repos g get org_name user_name owner_name pat (some fields) []).1) :
    entry.map Prod.fst = dispatchOrder.filter (fun k => decide (k ∈ fields)) := by
  unfold scan_repos at hmem
  by_cases hsel : ([org_name, user_name, owner_name].countP truthy) = 1
  · rw [if_neg (by simp [hsel])] at hmem
    cases hres : resolveOwner g org_name user_name owner_name with
    | error e => rw [hres] at hmem; simp at hmem
    | ok O =>
      rw [hres] at hmem
      simp only [List.mem_cons] at hmem
      rcases hmem with h | h
      · exact absurd h (by simp)
      · obtain ⟨r, _, hb⟩ := scanRecords_mem_record _ _ _ _ _ entry h
        have hfof : fieldsOrDefault (some fields) = fields := by
          cases fields with
          | nil => exact absurd rfl hne
          | cons f fs => rfl
        rw [hfof] at hb
        unfold buildEntry at hb
        cases hbe : builtinEntry get O.login fields r with
        | error e => rw [hbe] at hb; exact absurd hb (by simp)
        | ok en =>
          rw [hbe] at hb
          simp only [applyCallbacks_nil, Except.ok.injEq] at hb
          subst hb
          exact entryFields_keys get O.login r fields dispatchOrder en hbe
  · rw [if_pos (by simpa using hsel)] at hmem
    simp at hmem

/-- Keys of one yield, for stating the C4 counterexample. -/
def yieldKeys : Yield → List String
  | .repoList _ => []
  | .record e => e.map Prod.fst

/-- C4 counterexample: with the explicitly supplied field list
`["stargazers_count", "name"]` the single yielded record has keys
`["name", "stargazers_count"]` — the code's dispatch order — not the
caller's order, refuting the claim that record key order follows the
supplied field order. -/
theorem scan_repos_record_key_order_cex :
    (scan_repos demoGH demoGet none none (some "o") none
        (some ["stargazers_count", "name"]) []).1.map yieldKeys
      = [[], ["name", "stargazers_count"]]
    ∧ (["name", "stargazers_count"] : List String) ≠ ["stargazers_count", "name"] := by
  have h1 : (([none, none, some "o"] : List (Option String)).countP truthy) = 1 := by
    decide
  have h2 : resolveOwner demoGH none none (some "o") = .ok ⟨"o", [⟨0, "r"⟩]⟩ := rfl
  constructor
  · simp [scan_repos, h1, h2, List.mergeSort_singleton, fieldsOrDefault, scanRecords,
      buildEntry, builtinEntry, entryFields, fieldRule, demoGet, applyCallbacks,
      dispatchOrder, yieldKeys]
  · decide

/-- C4 amended witness: fields supplied in reverse dispatch order still yield
keys in dispatch order. -/
theorem scan_repos_record_key_order_witness :
    ((["stargazers_count", "name"] : List String) ≠ [])
    ∧ (Yield.record [("name", PyVal.vStr "<a href=\"https://github.com/o/3\">3</a>"),
        ("stargazers_count", PyVal.vInt 3)] ∈
        (scan_repos demoGH demoGet none none (some "o") none
          (some ["stargazers_count", "name"]) []).1)
    ∧ ([("name", PyVal.vStr "<a href=\"https://github.com/o/3\">3</a>"),
        ("stargazers_count", PyVal.vInt 3)].map Prod.fst
          = dispatchOrder.filter (fun k => decide (k ∈ ["stargazers_count", "name"]))) := by
  have h1 : (([none, none, some "o"] : List (Option String)).countP truthy) = 1 := by
    decide
  have h2 : resolveOwner demoGH none none (some "o") = .ok ⟨"o", [⟨0, "r"⟩]⟩ := rfl
  have hmem : Yield.record [("name", PyVal.vStr "<a href=\"https://github.com/o/3\">3</a>"),
      ("stargazers_count", PyVal.vInt 3)] ∈
      (scan_repos demoGH demoGet none none (some "o") none
        (some ["stargazers_count", "name"]) []).1 := by
    have h3 : (toString (3 : Int)) = "3" := by decide
    simp [scan_repos, h1, h2, List.mergeSort_singleton, fieldsOrDefault, scanRecords,
      buildEntry, builtinEntry, entryFields, fieldRule, demoGet, applyCallbacks,
      dispatchOrder, pyStr, h3]
  exact ⟨by decide, hmem,
    scan_repos_record_key_order demoGH demoGet none none (some "o") none
      ["stargazers_count", "name"] _ (by decide) hmem⟩

/-- Python `d.get(k)` lookup on the insertion-ordered association list. -/
def lookupKey : List (String × PyVal) → String → Option PyVal
  | [], _ => none
  | (k, v) :: rest, key => if k = key then some v else lookupKey rest key

/-- Accessor call `(attribute name, total flag)` that the dispatch block of a
given field performs on the getter. -/
def accessorOf : String → String × Bool
  | "name" => ("name", false)
  | "full_name" => ("full_name", false)
  | "private" => ("private", false)
  | "archived" => ("archived", false)
  | "fork" => ("fork", false)
  | "created_at" => ("created_at", false)
  | "issues" => ("get_issues", true)
  | "contributors" => ("get_contributors", true)
  | "subscribers" => ("get_subscribers", true)
  | "branches" => ("get_branches", true)
  | "releases" => ("get_releases", true)
  | "tags" => ("get_tags", true)
  | "labels" => ("get_labels", true)
  | "pulls" => ("get_pulls", true)
  | "downloads" => ("get_downloads", true)
  | "forks_count" => ("forks_count", false)
  | "stargazers_count" => ("stargazers_count", false)
  | "get_languages" => ("get_languages", false)
  | "get_commits" => ("get_commits", true)
  | "commits_1y" => ("get_stats_commit_activity", false)
  | "commit_activity" => ("get_stats_commit_activity", false)
  | _ => ("", false)

/-- Well-behaved getter: every accessor resolves to a value of the shape its
field block expects. -/
def benignGet : Getter := fun _ n _ =>
  if n = "full_name" then .ok (.vStr "o/r")
  else if n = "get_languages" then .ok (.vDict [("Python", 100)])
  else if n = "get_stats_commit_activity" then .ok .vNone
  else .ok (.vInt 7)

/-- Getter that behaves like `benignGet` except that the accessor call made
by field `f` raises `e` — modelling a network failure confined to that one
field's resolution. -/
def errGet (f : String) (e : PyErr) : Getter := fun r n total =>
  if (n, total) = accessorOf f then .error e else benignGet r n total

theorem isOk_ok {α : Type} (v : α) : (Except.ok v : Except PyErr α).isOk = true := rfl

theorem isOk_error {α : Type} (e : PyErr) :
    (Except.error e : Except PyErr α).isOk = false := rfl

theorem isOk_exists {α : Type} (x : Except PyErr α) (h : x.isOk = true) :
    ∃ v, x = .ok v := by
  cases x with
  | ok v => exact ⟨v, rfl⟩
  | error e => exact absurd h (by simp [isOk_error])

theorem entryFields_lookup (get : Getter) (login : String) (r : RepoObj)
    (fields : List String) (key : String) (v : PyVal) :
    ∀ ks : List String, ks.Nodup → ∀ entry : List (String × PyVal),
    entryFields get login r fields ks = .ok entry →
    key ∈ ks → key ∈ fields → fieldRule get login r key = .ok v →
    lookupKey entry key = some v := by
  intro ks
  induction ks with
  | nil => intro _ entry _ hmem; simp at hmem
  | cons k ks ih =>
    intro hnd entry h hmem hkf hrule
    have hnd1 : k ∉ ks := (List.nodup_cons.mp hnd).1
    have hnd2 : ks.Nodup := (List.nodup_cons.mp hnd).2
    simp only [entryFields] at h
    by_cases hk : k ∈ fields
    · rw [if_pos hk] at h
      cases hr : fieldRule get login r k with
      | error e => rw [hr] at h; exact absurd h (by simp)
      | ok v' =>
        rw [hr] at h
        cases hrest : entryFields get login r fields ks with
        | error e => rw [hrest] at h; exact absurd h (by simp)
        | ok rest =>
          rw [hrest] at h
          simp only [Except.ok.injEq] at h
          subst h
          rcases List.mem_cons.mp hmem with heq | hmemks
          · subst heq
            rw [hrule] at hr
            injection hr with hv
            simp [lookupKey, hv]
          · have hkk : k ≠ key := fun hc => hnd1 (hc ▸ hmemks)
            simp only [lookupKey, if_neg hkk]
            exact ih hnd2 rest hrest hmemks hkf hrule
    · rw [if_neg hk] at h
      rcases List.mem_cons.mp hmem with heq | hmemks
      · subst heq; exact absurd hkf hk
      · exact ih hnd2 entry h hmemks hkf hrule

theorem entryFields_isOk_congr (get₁ get₂ : Getter) (login : String) (r : RepoObj)
    (fields : List String) :
    ∀ ks : List String,
    (∀ k ∈ ks, (fieldRule get₁ login r k).isOk = (fieldRule get₂ login r k).isOk) →
    (entryFields get₁ login r fields ks).isOk
      = (entryFields get₂ login r fields ks).isOk := by
  intro ks
  induction ks with
  | nil => intro _; rfl
  | cons k ks ih =>
    intro hks
    have hk0 := hks k (List.mem_cons_self _ _)
    have hrest := ih (fun k' hk' => hks k' (List.mem_cons_of_mem _ hk'))
    simp only [entryFields]
    by_cases hk : k ∈ fields
    · rw [if_pos hk, if_pos hk]
      cases h1 : fieldRule get₁ login r k with
      | error e =>
        cases h2 : fieldRule get₂ login r k with
        | error e2 => simp [isOk_error]
        | ok v2 => rw [h1, h2] at hk0; simp [isOk_error, isOk_ok] at hk0
      | ok v1 =>
        cases h2 : fieldRule get₂ login r k with
        | error e2 => rw [h1, h2] at hk0; simp [isOk_error, isOk_ok] at hk0
        | ok v2 =>
          cases hr1 : entryFields get₁ login r fields ks with
          | error e =>
            cases hr2 : entryFields get₂ login r fields ks with
            | error e2 => simp [isOk_error]
            | ok rest2 => rw [hr1, hr2] at hrest; simp [isOk_error, isOk_ok] at hrest
          | ok rest1 =>
            cases hr2 : entryFields get₂ login r fields ks with
            | error e2 => rw [hr1, hr2] at hrest; simp [isOk_error, isOk_ok] at hrest
            | ok rest2 => simp [isOk_ok]
    · rw [if_neg hk, if_neg hk]
      exact hrest

theorem fieldRule_isOk_congr (get₁ get₂ : Getter) (login : String) (r : RepoObj)
    (hcong : ∀ name total, (name, total) ≠ ("get_commits", true) →
      get₁ r name total = get₂ r name total) :
    ∀ k ∈ dispatchOrder,
    (fieldRule get₁ login r k).isOk = (fieldRule get₂ login r k).isOk := by
  have e1 := hcong "name" false (by decide)
  have e2 := hcong "full_name" false (by decide)
  have e3 := hcong "private" false (by decide)
  have e4 := hcong "archived" false (by decide)
  have e5 := hcong "fork" false (by decide)
  have e6 := hcong "created_at" false (by decide)
  have e7 := hcong "get_issues" true (by decide)
  have e8 := hcong "get_contributors" true (by decide)
  have e9 := hcong "get_subscribers" true (by decide)
  have e10 := hcong "get_branches" true (by decide)
  have e11 := hcong "get_releases" true (by decide)
  have e12 := hcong "get_tags" true (by decide)
  have e13 := hcong "get_labels" true (by decide)
  have e14 := hcong "get_pulls" true (by decide)
  have e15 := hcong "get_downloads" true (by decide)
  have e16 := hcong "forks_count" false (by decide)
  have e17 := hcong "stargazers_count" false (by decide)
  have e18 := hcong "get_languages" false (by decide)
  have e19 := hcong "get_stats_commit_activity" false (by decide)
  intro k hk
  fin_cases hk <;>
    (simp only [fieldRule, e1, e2, e3, e4, e5, e6, e7, e8, e9, e10, e11, e12, e13,
       e14, e15, e16, e17, e18, e19]
     all_goals
       first
         | rfl
         | (cases get₁ r "get_commits" true <;> cases get₂ r "get_commits" true <;>
             simp [isOk_ok]))

set_option maxHeartbeats 3200000 in
/-- C3: `get_commits` is the single lenient field.  (i) When its accessor
raises, its field block yields `None` instead of propagating.  (ii) Any entry
actually produced then carries `None` under `get_commits`.  (iii) Whether an
entry is produced at all never depends on the `get_commits` accessor call —
its failures abort nothing.  (iv) With a getter whose only failure is the
`get_commits` accessor, every repository still yields a record (scan runs to
completion, each record holding `None` for `get_commits`).  (v) For every
other default field, an error in its resolution propagates out of the
generator: the scan ends with that error and yields no further records. -/
theorem scan_repos_get_commits_lenient :
    (∀ (get : Getter) (login : String) (r : RepoObj) (e : PyErr),
      get r "get_commits" true = .error e →
      fieldRule get login r "get_commits" = .ok .vNone)
    ∧ (∀ (get : Getter) (login : String) (fields : List String) (r : RepoObj)
        (entry : List (String × PyVal)) (e : PyErr),
      builtinEntry get login fields r = .ok entry →
      get r "get_commits" true = .error e →
      "get_commits" ∈ fields →
      lookupKey entry "get_commits" = some .vNone)
    ∧ (∀ (get₁ get₂ : Getter) (login : String) (fields : List String) (r : RepoObj),
      (∀ name total, (name, total) ≠ ("get_commits", true) →
        get₁ r name total = get₂ r name total) →
      (builtinEntry get₁ login fields r).isOk = (builtinEntry get₂ login fields r).isOk)
    ∧ (∀ (e : PyErr) (login : String) (rs : List RepoObj),
      (scanRecords (errGet "get_commits" e) login defaultFields [] rs).2 = none
      ∧ (scanRecords (errGet "get_commits" e) login defaultFields [] rs).1.length
          = rs.length
      ∧ ∀ y ∈ (scanRecords (errGet "get_commits" e) login defaultFields [] rs).1,
          ∃ en, y = .record en ∧ lookupKey en "get_commits" = some .vNone)
    ∧ (∀ f ∈ defaultFields, f ≠ "get_commits" →
        ∀ (e : PyErr) (login : String) (r : RepoObj) (rs : List RepoObj),
      scanRecords (errGet f e) login defaultFields [] (r :: rs) = ([], some e)) := by
  refine ⟨?_, ?_, ?_, ?_, ?_⟩
  · intro get login r e h
    simp [fieldRule, h]
  · intro get login fields r entry e hok herr hmem
    have hrule : fieldRule get login r "get_commits" = .ok .vNone := by
      simp [fieldRule, herr]
    exact entryFields_lookup get login r fields "get_commits" .vNone dispatchOrder
      (by decide) entry hok (by decide) hmem hrule
  · intro get₁ get₂ login fields r hcong
    exact entryFields_isOk_congr get₁ get₂ login r fields dispatchOrder
      (fieldRule_isOk_congr get₁ get₂ login r hcong)
  · intro e login rs
    have hone : ∀ r : RepoObj,
        ∃ en, builtinEntry (errGet "get_commits" e) login defaultFields r = .ok en
          ∧ lookupKey en "get_commits" = some .vNone := by
      intro r
      have hcong : ∀ name total, (name, total) ≠ ("get_commits", true) →
          errGet "get_commits" e r name total = benignGet r name total := by
        intro n t hnt
        simp only [errGet, accessorOf]
        rw [if_neg hnt]
      have hbenign : (builtinEntry benignGet login defaultFields r).isOk = true := by
        simp [builtinEntry, entryFields, fieldRule, benignGet, defaultFields,
          dispatchOrder, isOk_ok, pyTruthy, List.mergeSort_singleton]
      have hok : (builtinEntry (errGet "get_commits" e) login defaultFields r).isOk
          = true := by
        unfold builtinEntry
        unfold builtinEntry at hbenign
        rw [entryFields_isOk_congr _ benignGet login r defaultFields dispatchOrder
          (fieldRule_isOk_congr _ benignGet login r hcong)]
        exact hbenign
      obtain ⟨en, hen⟩ := isOk_exists _ hok
      refine ⟨en, hen, ?_⟩
      have herr : errGet "get_commits" e r "get_commits" true = .error e := by
        simp [errGet, accessorOf]
      have hrule : fieldRule (errGet "get_commits" e) login r "get_commits"
          = .ok .vNone := by
        simp [fieldRule, herr]
      exact entryFields_lookup _ login r defaultFields "get_commits" .vNone dispatchOrder
        (by decide) en hen (by decide) (by decide) hrule
    induction rs with
    | nil =>
      exact ⟨rfl, rfl, by intro y hy; simp [scanRecords] at hy⟩
    | cons r rs ih =>
      obtain ⟨en, hen, hlk⟩ := hone r
      have hbe : buildEntry (errGet "get_commits" e) login defaultFields [] r
          = .ok en := by
        unfold buildEntry
        rw [hen]
        rfl
      refine ⟨?_, ?_, ?_⟩
      · simp only [scanRecords, hbe]
        exact ih.1
      · simp only [scanRecords, hbe, List.length_cons]
        rw [ih.2.1]
      · intro y hy
        simp only [scanRecords, hbe, List.mem_cons] at hy
        rcases hy with h | h
        · exact ⟨en, h, hlk⟩
        · exact ih.2.2 y h
  · intro f hf hne e login r rs
    have habort : buildEntry (errGet f e) login defaultFields [] r = .error e := by
      fin_cases hf <;>
        first
          | (exact absurd rfl hne)
          | simp [buildEntry, builtinEntry, entryFields, fieldRule, errGet, benignGet,
              accessorOf, defaultFields, dispatchOrder, applyCallbacks, pyTruthy,
              List.mergeSort_singleton]
    simp [scanRecords, habort]

/-- C3 witness: a rate-limit error confined to `get_commits` yields a full
scan with `None` entries, while the same error on `name` aborts the scan. -/
theorem scan_repos_get_commits_lenient_witness :
    (errGet "get_commits" PyErr.rateLimit ⟨0, "r"⟩ "get_commits" true
        = .error .rateLimit)
    ∧ fieldRule (errGet "get_commits" .rateLimit) "o" ⟨0, "r"⟩ "get_commits"
        = .ok .vNone
    ∧ (scanRecords (errGet "get_commits" .rateLimit) "o" defaultFields []
        [⟨0, "r"⟩]).2 = none
    ∧ ("name" ∈ defaultFields ∧ "name" ≠ "get_commits")
    ∧ scanRecords (errGet "name" .rateLimit) "o" defaultFields []
        [⟨0, "r"⟩, ⟨1, "s"⟩] = ([], some .rateLimit) :=
  ⟨rfl,
   scan_repos_get_commits_lenient.1 (errGet "get_commits" .rateLimit) "o"
     ⟨0, "r"⟩ .rateLimit rfl,
   (scan_repos_get_commits_lenient.2.2.2.1 .rateLimit "o" [⟨0, "r"⟩]).1,
   ⟨by decide, by decide⟩,
   scan_repos_get_commits_lenient.2.2.2.2 "name" (by decide) (by decide)
     .rateLimit "o" ⟨0, "r"⟩ [⟨1, "s"⟩]⟩

end Reposheet
